import Mathlib

/-!
Verification development for the open-get-fonts crate.

The crate enumerates installed system fonts.  Its pure decision logic is
embedded below; every call into an operating-system service (font_kit,
fontconfig, Core Text, DirectWrite, the filesystem) is modelled as an
explicit environment value holding the answers the service would give,
so each Rust function becomes a total Lean function of its environment.

Source layout (src/crates/open-get-fonts/src/):
  lib.rs      : FontInfo, process_handle, get_system_fonts
  linux.rs    : get_fontconfig_fonts
  macos.rs    : get_core_text_fonts
  windows.rs  : get_directwrite_fonts
-/

namespace OpenGetFonts

/-- Mirror of struct FontInfo in lib.rs: a font family name and a file path
(the path is the empty string for memory-resident fonts). -/
structure FontInfo where
  name : String
  path : String
  deriving DecidableEq

/-- Mirror of font_kit Handle as matched by process_handle in lib.rs:
Handle::Path \x7b path, font_index, .. \x7d or Handle::Memory \x7b bytes, font_index \x7d.
The byte buffer is carried but never inspected by the crate. -/
inductive Handle where
  | path (path : String) (font_index : Nat)
  | memory (bytes : List Nat) (font_index : Nat)
  deriving DecidableEq

/-- Mirror of the process_handle closure in lib.rs (lines 79-96): a Path
handle yields a record with its path string (to_string_lossy is modelled as
the identity, the path already being a string in the model); a Memory handle
yields a record with an empty path. Both arms push exactly one record, so the
closure is modelled as returning that record and the caller appends it. -/
def process_handle (handle : Handle) (family_name : String) : FontInfo :=
  match handle with
  | .path p _ => { name := family_name, path := p }
  | .memory _ _ => { name := family_name, path := "" }

/-! ## Linux probe (linux.rs) -/

/-- One entry of the fontconfig font set in linux.rs: the two values
pattern.get_string returns for the FC_FAMILY and FC_FILE properties. -/
structure FcPattern where
  family : Option String
  file : Option String
  deriving DecidableEq

/-- Environment of get_fontconfig_fonts: whether Fontconfig::new() succeeds,
the entries list_fonts returns, and the filesystem predicate behind
PathBuf::exists.  The CString::new conversions of the constants FC_FAMILY and
FC_FILE always succeed (those byte strings hold no interior NUL), so they do
not appear in the model. -/
structure LinuxEnv where
  fcAvailable : Bool
  patterns : List FcPattern
  pathExists : String → Bool

/-- The three well-known font paths hardcoded in linux.rs (lines 44-48). -/
def hardcoded_fallback_paths : List String :=
  [ "/usr/share/fonts/truetype/dejavu/DejaVuSans.ttf"
  , "/usr/share/fonts/truetype/liberation/LiberationSans-Regular.ttf"
  , "/usr/share/fonts/TTF/Arial.ttf" ]

/-- Characters of the final slash-separated component of a path: the model of
PathBuf::file_name for the plain absolute file paths linux.rs applies it to
(no trailing slash, not ending in a dot-dot component). -/
def afterLastSlash : List Char → List Char
  | [] => []
  | c :: rest =>
      if c = '/' then afterLastSlash rest
      else if '/' ∈ rest then afterLastSlash rest
      else c :: rest

/-- Drop the final dot and everything after it. -/
def dropLastDot : List Char → List Char
  | [] => []
  | c :: rest =>
      if '.' ∈ rest then c :: dropLastDot rest
      else if c = '.' then []
      else c :: rest

/-- Model of Path::file_stem followed by to_string_lossy, as used by
linux.rs on the hardcoded fallback paths: the file name with its extension
stripped; a name that starts with a dot and has no further dot is kept whole
(std semantics).  unwrap_or_default maps a missing stem to the empty string. -/
def fileStem (p : String) : String :=
  match afterLastSlash p.data with
  | [] => ""
  | c :: rest =>
      if c = '.' ∧ '.' ∉ rest then String.mk (c :: rest)
      else String.mk (dropLastDot (c :: rest))

/-- Mirror of get_fontconfig_fonts in linux.rs: None when fontconfig is
unavailable; otherwise one record per pattern exposing both FC_FAMILY and
FC_FILE; if that yields no record, the hardcoded well-known paths that exist
on disk are pushed instead, named by their file stem. -/
def get_fontconfig_fonts (env : LinuxEnv) : Option (List FontInfo) :=
  if env.fcAvailable = false then none
  else
    let fonts := env.patterns.foldl (fun fonts pat =>
      match pat.family with
      | some family =>
        match pat.file with
        | some path => fonts ++ [{ name := family, path := path }]
        | none => fonts
      | none => fonts) []
    let fonts :=
      if fonts.isEmpty then
        hardcoded_fallback_paths.foldl (fun fonts path =>
          if env.pathExists path then
            fonts ++ [{ name := fileStem path, path := path }]
          else fonts) fonts
      else fonts
    some fonts

/-! ## macOS probe (macos.rs) -/

/-- One Core Text descriptor as observed by macos.rs: the family name of the
CTFont built from it at size 0.0, and the URL attribute, where the outer
Option is the result of get_url and the inner Option the result of to_path
(the path already rendered through to_string_lossy). -/
structure CTDescriptor where
  family_name : String
  url : Option (Option String)
  deriving DecidableEq

/-- Environment of get_core_text_fonts: the descriptor list of the
all-families font collection, or none when get_descriptors returns None. -/
structure MacEnv where
  descriptors : Option (List CTDescriptor)
  deriving DecidableEq

/-- Mirror of get_core_text_fonts in macos.rs: None when the collection has
no descriptor array; otherwise, for each descriptor, a record is pushed only
when the URL attribute is present and converts to a filesystem path. -/
def get_core_text_fonts (env : MacEnv) : Option (List FontInfo) :=
  match env.descriptors with
  | none => none
  | some descriptors =>
    some (descriptors.foldl (fun fonts descriptor =>
      match descriptor.url with
      | some url =>
        match url with
        | some path => fonts ++ [{ name := descriptor.family_name, path := path }]
        | none => fonts
      | none => fonts) [])

/-! ## Windows probe (windows.rs) -/

/-- Outcomes of the per-family native calls in windows.rs: the HRESULT of
GetFontFamily, GetFamilyNames, GetStringLength and GetString as success
booleans, and the result of decoding the UTF-16 buffer written by GetString
(U16CString::from_vec_with_nul composed with to_string), none meaning the
decode failed. -/
structure WinFamily where
  familyOk : Bool
  namesOk : Bool
  lengthOk : Bool
  stringOk : Bool
  decoded : Option String
  deriving DecidableEq

/-- Environment of get_directwrite_fonts: the HRESULTs of DWriteCreateFactory
and GetSystemFontCollection as success booleans, and the per-family call
outcomes for the GetFontFamilyCount families.  No filesystem or registry
component exists: the probe never consults either. -/
structure WinEnv where
  factoryOk : Bool
  collectionOk : Bool
  families : List WinFamily
  deriving DecidableEq

/-- Mirror of get_directwrite_fonts in windows.rs: None when factory or
collection creation fails; each family whose GetFontFamily, GetFamilyNames,
GetStringLength or GetString call fails is skipped with continue; otherwise
the decoded name (empty via unwrap_or_default when the decode fails) is
paired with the synthesized placeholder path
format!("C:\\Windows\\Fonts\x7b\x7d.ttf", name) and pushed. -/
def get_directwrite_fonts (env : WinEnv) : Option (List FontInfo) :=
  if env.factoryOk = false then none
  else if env.collectionOk = false then none
  else
    some (env.families.foldl (fun fonts family =>
      if family.familyOk = false then fonts
      else if family.namesOk = false then fonts
      else if family.lengthOk = false then fonts
      else if family.stringOk = false then fonts
      else
        let name := family.decoded.getD ""
        fonts ++ [{ name := name, path := "C:\\Windows\\Fonts\\" ++ name ++ ".ttf" }]) [])

/-- The native handles windows.rs acquires through out-parameters. -/
inductive WinHandle where
  | factory
  | collection
  | family (index : Nat)
  | names (index : Nat)
  deriving DecidableEq

/-- Acquisition and release events on native handles, recorded to audit the
resource discipline of windows.rs. -/
inductive WinEvent where
  | acquire (h : WinHandle)
  | release (h : WinHandle)
  deriving DecidableEq

/-- Whether an event is a release of some handle. -/
def isRelease (e : WinEvent) : Bool :=
  match e with
  | .release _ => true
  | .acquire _ => false

/-- Handle events of one loop iteration of windows.rs: GetFontFamily fills
the family pointer on success, GetFamilyNames fills the names pointer on
success; the source contains no Release call, so no release event is ever
recorded on any path, including the continue paths. -/
def dw_family_events (index : Nat) (family : WinFamily) : List WinEvent :=
  if family.familyOk = false then []
  else if family.namesOk = false then [.acquire (.family index)]
  else [.acquire (.family index), .acquire (.names index)]

/-- get_directwrite_fonts instrumented with the native-handle events the
source performs: the factory is acquired when DWriteCreateFactory succeeds,
the collection when GetSystemFontCollection succeeds, then the per-family
events; windows.rs never calls Release, so the trace holds no release event
on any exit path. -/
def get_directwrite_fonts_traced (env : WinEnv) :
    Option (List FontInfo) × List WinEvent :=
  if env.factoryOk = false then (none, [])
  else if env.collectionOk = false then (none, [.acquire .factory])
  else
    (get_directwrite_fonts env,
      .acquire .factory :: .acquire .collection ::
        (env.families.enum.map (fun p => dw_family_events p.1 p.2)).flatten)

/-! ## Orchestrator (lib.rs) -/

/-- The compile-time target_os selection of lib.rs, as a value: exactly one
platform module is compiled in, or none on an unsupported OS. -/
inductive TargetOS where
  | linux
  | macos
  | windows
  | other
  deriving DecidableEq

/-- Environment of get_system_fonts: the target OS the crate was compiled
for, the answers of the font_kit SystemSource (all_families, and
select_best_match for the family title with default Properties), and the
environments of the three platform probes. -/
structure Env where
  os : TargetOS
  all_families : Except Unit (List String)
  select_best_match : String → Except Unit Handle
  linux_env : LinuxEnv
  macos_env : MacEnv
  windows_env : WinEnv

/-- The one platform probe compiled for the target OS, as selected by the
cfg(target_os) blocks of lib.rs; none when no block applies. -/
def osProbe (env : Env) : Option (List FontInfo) :=
  match env.os with
  | .linux => get_fontconfig_fonts env.linux_env
  | .macos => get_core_text_fonts env.macos_env
  | .windows => get_directwrite_fonts env.windows_env
  | .other => none

/-- Mirror of get_system_fonts in lib.rs: when all_families succeeds, each
family whose select_best_match succeeds contributes the record built by
process_handle and a failing family is skipped; when all_families fails, the
fonts vector (still empty) is extended with the compiled platform probe
result when that probe returns Some. -/
def get_system_fonts (env : Env) : List FontInfo :=
  match env.all_families with
  | .ok font_families =>
    font_families.foldl (fun fonts family_name =>
      match env.select_best_match family_name with
      | .ok handle => fonts ++ [process_handle handle family_name]
      | .error _ => fonts) []
  | .error _ =>
    match osProbe env with
    | some probe_fonts => probe_fonts
    | none => []

/-! ## Per-item record functions (statement-side characterizations of the
loop bodies above; each is the Option-valued contribution of one item). -/

/-- Contribution of one family name in the success branch of
get_system_fonts. -/
def family_record (env : Env) (family_name : String) : Option FontInfo :=
  match env.select_best_match family_name with
  | .ok handle => some (process_handle handle family_name)
  | .error _ => none

/-- Contribution of one fontconfig pattern in get_fontconfig_fonts. -/
def fc_record (pat : FcPattern) : Option FontInfo :=
  match pat.family with
  | some family =>
    match pat.file with
    | some path => some { name := family, path := path }
    | none => none
  | none => none

/-- Contribution of one hardcoded path in the Linux fallback loop. -/
def fc_fallback_record (env : LinuxEnv) (path : String) : Option FontInfo :=
  if env.pathExists path then some { name := fileStem path, path := path }
  else none

/-- Contribution of one descriptor in get_core_text_fonts. -/
def ct_record (descriptor : CTDescriptor) : Option FontInfo :=
  match descriptor.url with
  | some url =>
    match url with
    | some path => some { name := descriptor.family_name, path := path }
    | none => none
  | none => none

/-- Contribution of one family in get_directwrite_fonts. -/
def dw_family_record (family : WinFamily) : Option FontInfo :=
  if family.familyOk = false then none
  else if family.namesOk = false then none
  else if family.lengthOk = false then none
  else if family.stringOk = false then none
  else
    let name := family.decoded.getD ""
    some { name := name, path := "C:\\Windows\\Fonts\\" ++ name ++ ".ttf" }

/-! ## Concrete environments used by witnesses and counterexamples -/

/-- A Linux environment whose fontconfig query yields one fully populated
pattern; no path exists on disk. -/
def demo_linux_env : LinuxEnv :=
  { fcAvailable := true
  , patterns := [{ family := some "Foo", file := some "/a/b.ttf" }]
  , pathExists := fun _ => false }

/-- A macOS environment whose collection exposes no descriptor array. -/
def demo_mac_env : MacEnv :=
  { descriptors := none }

/-- A Windows environment with one fully decodable family named Arial. -/
def demo_win_env : WinEnv :=
  { factoryOk := true
  , collectionOk := true
  , families := [{ familyOk := true, namesOk := true, lengthOk := true
                 , stringOk := true, decoded := some "Arial" }] }

/-- A Windows environment with one family whose four native calls succeed
but whose UTF-16 name decode fails. -/
def demo_win_env_decode_fail : WinEnv :=
  { factoryOk := true
  , collectionOk := true
  , families := [{ familyOk := true, namesOk := true, lengthOk := true
                 , stringOk := true, decoded := none }] }

/-! ## Loop characterization lemmas -/

/-- The family loop of get_system_fonts accumulates exactly the filterMap of
the per-family contributions. -/
theorem gsf_fold (env : Env) (fams : List String) (acc : List FontInfo) :
    fams.foldl (fun fonts family_name =>
      match env.select_best_match family_name with
      | .ok handle => fonts ++ [process_handle handle family_name]
      | .error _ => fonts) acc
      = acc ++ fams.filterMap (family_record env) := by
  induction fams generalizing acc with
  | nil => simp
  | cons fam fams ih =>
    simp only [List.foldl_cons, List.filterMap_cons, family_record]
    cases h : env.select_best_match fam <;> simp [h, ih]

/-- The pattern loop of get_fontconfig_fonts accumulates exactly the
filterMap of the per-pattern contributions. -/
theorem fc_fold (pats : List FcPattern) (acc : List FontInfo) :
    pats.foldl (fun fonts pat =>
      match pat.family with
      | some family =>
        match pat.file with
        | some path => fonts ++ [{ name := family, path := path }]
        | none => fonts
      | none => fonts) acc
      = acc ++ pats.filterMap fc_record := by
  induction pats generalizing acc with
  | nil => simp
  | cons pat pats ih =>
    simp only [List.foldl_cons, List.filterMap_cons, fc_record]
    cases hf : pat.family with
    | none => simp [ih]
    | some family => cases hp : pat.file <;> simp [ih]

/-- The fallback loop of get_fontconfig_fonts accumulates exactly the
filterMap of the per-path contributions. -/
theorem fb_fold (env : LinuxEnv) (paths : List String) (acc : List FontInfo) :
    paths.foldl (fun fonts path =>
      if env.pathExists path then
        fonts ++ [{ name := fileStem path, path := path }]
      else fonts) acc
      = acc ++ paths.filterMap (fc_fallback_record env) := by
  induction paths generalizing acc with
  | nil => simp
  | cons path paths ih =>
    simp only [List.foldl_cons, List.filterMap_cons, fc_fallback_record]
    cases h : env.pathExists path <;> simp [h, ih]

/-- The descriptor loop of get_core_text_fonts accumulates exactly the
filterMap of the per-descriptor contributions. -/
theorem ct_fold (descriptors : List CTDescriptor) (acc : List FontInfo) :
    descriptors.foldl (fun fonts descriptor =>
      match descriptor.url with
      | some url =>
        match url with
        | some path => fonts ++ [{ name := descriptor.family_name, path := path }]
        | none => fonts
      | none => fonts) acc
      = acc ++ descriptors.filterMap ct_record := by
  induction descriptors generalizing acc with
  | nil => simp
  | cons descriptor descriptors ih =>
    simp only [List.foldl_cons, List.filterMap_cons, ct_record]
    cases hu : descriptor.url with
    | none => simp [ih]
    | some url => cases url <;> simp [ih]

/-- The family loop of get_directwrite_fonts accumulates exactly the
filterMap of the per-family contributions. -/
theorem dw_fold (families : List WinFamily) (acc : List FontInfo) :
    families.foldl (fun fonts family =>
      if family.familyOk = false then fonts
      else if family.namesOk = false then fonts
      else if family.lengthOk = false then fonts
      else if family.stringOk = false then fonts
      else
        let name := family.decoded.getD ""
        fonts ++ [{ name := name, path := "C:\\Windows\\Fonts\\" ++ name ++ ".ttf" }]) acc
      = acc ++ families.filterMap dw_family_record := by
  induction families generalizing acc with
  | nil => simp
  | cons family families ih =>
    simp only [List.foldl_cons, List.filterMap_cons, dw_family_record]
    cases h1 : family.familyOk <;> cases h2 : family.namesOk <;>
      cases h3 : family.lengthOk <;> cases h4 : family.stringOk <;>
      simp [h1, h2, h3, h4, ih]

/-- Success branch of get_system_fonts: the result is the filterMap of the
per-family contributions over the reported family list. -/
theorem get_system_fonts_ok (env : Env) (fams : List String)
    (h : env.all_families = .ok fams) :
    get_system_fonts env = fams.filterMap (family_record env) := by
  unfold get_system_fonts
  rw [h]
  simpa using gsf_fold env fams []

/-- Failure branch of get_system_fonts: the result is whatever the compiled
platform probe returns, or nothing when that probe is unavailable. -/
theorem get_system_fonts_err (env : Env) (e : Unit)
    (h : env.all_families = .error e) :
    get_system_fonts env = (osProbe env).getD [] := by
  unfold get_system_fonts
  rw [h]
  cases hp : osProbe env <;> simp [hp]

/-- Characterization of get_fontconfig_fonts when fontconfig initializes:
the query contributions, or the hardcoded fallback contributions when the
query produced none. -/
theorem get_fontconfig_fonts_char (env : LinuxEnv) (h : env.fcAvailable = true) :
    get_fontconfig_fonts env =
      some (if (env.patterns.filterMap fc_record).isEmpty then
              hardcoded_fallback_paths.filterMap (fc_fallback_record env)
            else env.patterns.filterMap fc_record) := by
  unfold get_fontconfig_fonts
  rw [h]
  simp only [Bool.true_eq_false, if_false]
  rw [show (env.patterns.foldl (fun fonts pat =>
      match pat.family with
      | some family =>
        match pat.file with
        | some path => fonts ++ [{ name := family, path := path }]
        | none => fonts
      | none => fonts) []) = env.patterns.filterMap fc_record from by
    simpa using fc_fold env.patterns []]
  by_cases hemp : (env.patterns.filterMap fc_record).isEmpty = true
  · rw [if_pos hemp, if_pos hemp, List.isEmpty_iff.mp hemp]
    simpa using fb_fold env hardcoded_fallback_paths []
  · rw [if_neg hemp, if_neg hemp]

/-- Characterization of get_core_text_fonts when the descriptor array is
present: the filterMap of the per-descriptor contributions. -/
theorem get_core_text_fonts_char (env : MacEnv) (ds : List CTDescriptor)
    (h : env.descriptors = some ds) :
    get_core_text_fonts env = some (ds.filterMap ct_record) := by
  unfold get_core_text_fonts
  rw [h]
  simpa using ct_fold ds []

/-- Characterization of get_directwrite_fonts when the factory and the
collection are both created: the filterMap of the per-family contributions. -/
theorem get_directwrite_fonts_char (env : WinEnv)
    (hf : env.factoryOk = true) (hc : env.collectionOk = true) :
    get_directwrite_fonts env = some (env.families.filterMap dw_family_record) := by
  unfold get_directwrite_fonts
  rw [hf, hc]
  simp only [Bool.true_eq_false, if_false]
  simpa using dw_fold env.families []

/-! ## Claim theorems -/

/-- C1: the top-level enumeration get_system_fonts is total — in this
embedding it is a plain function into List FontInfo, never an error value —
and internal failures only reduce the number of records: when family listing
succeeds, at most one record per reported family is returned (a failing
family is dropped); when family listing fails, the result is exactly what
the compiled platform probe yields, and the empty list (not an error) when
that probe is unavailable. -/
theorem get_system_fonts_total_no_error (env : Env) :
    (∀ fams, env.all_families = .ok fams →
      (get_system_fonts env).length ≤ fams.length) ∧
    (∀ e, env.all_families = .error e →
      get_system_fonts env = (osProbe env).getD []) ∧
    (∀ e, env.all_families = .error e → osProbe env = none →
      get_system_fonts env = []) := by
  refine ⟨?_, ?_, ?_⟩
  · intro fams h
    rw [get_system_fonts_ok env fams h]
    exact List.length_filterMap_le _ _
  · intro e h
    exact get_system_fonts_err env e h
  · intro e h hp
    rw [get_system_fonts_err env e h, hp]
    rfl

/-- An environment whose source lists two families, one of which fails to
resolve. -/
def c1_ok_env : Env :=
  { os := .other
  , all_families := .ok ["A", "B"]
  , select_best_match := fun n =>
      if n = "A" then .ok (.path "/x/A.ttf" 0) else .error ()
  , linux_env := demo_linux_env
  , macos_env := demo_mac_env
  , windows_env := demo_win_env }

/-- An environment on an unsupported OS whose source fails outright. -/
def c1_err_env : Env :=
  { os := .other
  , all_families := .error ()
  , select_best_match := fun _ => .error ()
  , linux_env := demo_linux_env
  , macos_env := demo_mac_env
  , windows_env := demo_win_env }

/-- Witness for C1 at two concrete environments. -/
theorem get_system_fonts_total_no_error_witness :
    (get_system_fonts c1_ok_env).length ≤ 2 ∧
    get_system_fonts c1_err_env = (osProbe c1_err_env).getD [] ∧
    get_system_fonts c1_err_env = [] :=
  ⟨(get_system_fonts_total_no_error c1_ok_env).1 ["A", "B"] rfl,
   (get_system_fonts_total_no_error c1_err_env).2.1 () rfl,
   (get_system_fonts_total_no_error c1_err_env).2.2 () rfl rfl⟩

/-- An environment whose source succeeds with zero families while the
compiled Linux probe would report one font. -/
def c2_env : Env :=
  { os := .linux
  , all_families := .ok []
  , select_best_match := fun _ => .error ()
  , linux_env := demo_linux_env
  , macos_env := demo_mac_env
  , windows_env := demo_win_env }

/-- C2 counterexample: a source that reports zero families (an Ok empty
list) yields the empty result and the platform probe is never consulted,
even though the probe output is nonempty — the result is NOT the probe
output, refuting the claim as stated. -/
theorem zero_families_not_probe_output_cex :
    get_system_fonts c2_env = [] ∧
    (osProbe c2_env).getD [] = [{ name := "Foo", path := "/a/b.ttf" }] ∧
    get_system_fonts c2_env ≠ (osProbe c2_env).getD [] := by
  refine ⟨rfl, by decide, by decide⟩

/-- C2 (amended): only an outright FAILURE of the family listing routes
enumeration to the platform probe, whose output is then returned exactly
(with no generic contribution); a successful listing of zero families yields
the empty result without consulting any probe. -/
theorem source_failure_yields_exactly_probe_output (env : Env) :
    (∀ e, env.all_families = .error e →
      get_system_fonts env = (osProbe env).getD []) ∧
    (env.all_families = .ok [] → get_system_fonts env = []) := by
  refine ⟨fun e h => get_system_fonts_err env e h, fun h => ?_⟩
  rw [get_system_fonts_ok env [] h]
  rfl

/-- An environment on Linux whose source fails outright. -/
def c2_err_env : Env :=
  { os := .linux
  , all_families := .error ()
  , select_best_match := fun _ => .error ()
  , linux_env := demo_linux_env
  , macos_env := demo_mac_env
  , windows_env := demo_win_env }

/-- Witness for the amended C2 at two concrete environments. -/
theorem source_failure_yields_exactly_probe_output_witness :
    get_system_fonts c2_err_env = (osProbe c2_err_env).getD [] ∧
    get_system_fonts c2_env = [] :=
  ⟨(source_failure_yields_exactly_probe_output c2_err_env).1 () rfl,
   (source_failure_yields_exactly_probe_output c2_env).2 rfl⟩

/-- C4: when the family listing succeeds, a best-match resolution failure
for one family while every other family resolves causes exactly that family
to be skipped: the result is the per-family records of the remaining
families in order, one record per remaining occurrence, and enumeration is
not aborted. -/
theorem family_resolution_failure_skips_only_that_family (env : Env)
    (fams : List String) (fam : String)
    (hok : env.all_families = .ok fams)
    (hfail : env.select_best_match fam = .error ())
    (hothers : ∀ g ∈ fams, g ≠ fam →
      ∃ handle, env.select_best_match g = .ok handle) :
    get_system_fonts env
      = (fams.filter (fun g => g != fam)).filterMap (family_record env) ∧
    (get_system_fonts env).length
      = (fams.filter (fun g => g != fam)).length := by
  have key : ∀ l : List String,
      (∀ g ∈ l, g ≠ fam → ∃ handle, env.select_best_match g = .ok handle) →
      l.filterMap (family_record env)
        = (l.filter (fun g => g != fam)).filterMap (family_record env)
      ∧ ((l.filter (fun g => g != fam)).filterMap (family_record env)).length
        = (l.filter (fun g => g != fam)).length := by
    intro l
    induction l with
    | nil => intro _; simp
    | cons g l ih =>
      intro hl
      have hl' : ∀ x ∈ l, x ≠ fam → ∃ handle, env.select_best_match x = .ok handle :=
        fun x hx => hl x (List.mem_cons_of_mem g hx)
      obtain ⟨ih1, ih2⟩ := ih hl'
      by_cases hg : g = fam
      · subst hg
        have hrec : family_record env g = none := by
          simp [family_record, hfail]
        simp [List.filter_cons, List.filterMap_cons, hrec, ih1, ih2]
      · obtain ⟨handle, hh⟩ := hl g (List.mem_cons_self g l) hg
        have hrec : family_record env g = some (process_handle handle g) := by
          simp [family_record, hh]
        simp [List.filter_cons, List.filterMap_cons, hrec, hg, ih1, ih2]
  obtain ⟨k1, k2⟩ := key fams hothers
  rw [get_system_fonts_ok env fams hok]
  exact ⟨k1, by rw [k1]; exact k2⟩

/-- An environment listing three families of which exactly the middle one
fails to resolve. -/
def c4_env : Env :=
  { os := .other
  , all_families := .ok ["A", "B", "C"]
  , select_best_match := fun n =>
      if n = "B" then .error () else .ok (.path ("/f/" ++ n ++ ".ttf") 0)
  , linux_env := demo_linux_env
  , macos_env := demo_mac_env
  , windows_env := demo_win_env }

/-- Witness for C4: with families A, B, C and only B failing, the two
remaining records are returned. -/
theorem family_resolution_failure_skips_only_that_family_witness :
    get_system_fonts c4_env
      = (["A", "B", "C"].filter (fun g => g != "B")).filterMap (family_record c4_env) ∧
    (get_system_fonts c4_env).length
      = (["A", "B", "C"].filter (fun g => g != "B")).length := by
  refine family_resolution_failure_skips_only_that_family c4_env
    ["A", "B", "C"] "B" rfl rfl ?_
  intro g hg hne
  fin_cases hg
  · exact ⟨.path "/f/A.ttf" 0, rfl⟩
  · exact absurd rfl hne
  · exact ⟨.path "/f/C.ttf" 0, rfl⟩

/-- C5: when fontconfig initializes but its query yields zero entries, the
probe returns Some of exactly one record per hardcoded well-known path that
exists on disk, named by the file stem of the path; in particular Some of
the empty list (not None) when none of the three paths exist, and a
DejaVuSans record when the DejaVu path exists. -/
theorem linux_empty_query_hardcoded_fallback (env : LinuxEnv)
    (hfc : env.fcAvailable = true) (hq : env.patterns = []) :
    get_fontconfig_fonts env
      = some (hardcoded_fallback_paths.filterMap (fc_fallback_record env)) ∧
    ((∀ p ∈ hardcoded_fallback_paths, env.pathExists p = false) →
      get_fontconfig_fonts env = some []) ∧
    (env.pathExists "/usr/share/fonts/truetype/dejavu/DejaVuSans.ttf" = true →
      ∃ l, get_fontconfig_fonts env = some l ∧
        ({ name := "DejaVuSans"
         , path := "/usr/share/fonts/truetype/dejavu/DejaVuSans.ttf" } : FontInfo) ∈ l) := by
  have hchar := get_fontconfig_fonts_char env hfc
  rw [hq] at hchar
  simp only [List.filterMap_nil, List.isEmpty_nil, if_true] at hchar
  refine ⟨hchar, ?_, ?_⟩
  · intro hnone
    rw [hchar]
    congr 1
    rw [List.filterMap_eq_nil_iff]
    intro p hp
    simp [fc_fallback_record, hnone p hp]
  · intro hdj
    refine ⟨_, hchar, List.mem_filterMap.mpr ⟨"/usr/share/fonts/truetype/dejavu/DejaVuSans.ttf", ?_, ?_⟩⟩
    · simp [hardcoded_fallback_paths]
    · rw [fc_fallback_record, if_pos hdj]
      decide

/-- A Linux environment whose query yields nothing and where, of the three
hardcoded paths, exactly the DejaVu one exists on disk. -/
def c5_env : LinuxEnv :=
  { fcAvailable := true
  , patterns := []
  , pathExists := fun p => p == "/usr/share/fonts/truetype/dejavu/DejaVuSans.ttf" }

/-- Witness for C5: with only the DejaVu path on disk, the probe returns
Some of a list containing the DejaVuSans record. -/
theorem linux_empty_query_hardcoded_fallback_witness :
    get_fontconfig_fonts c5_env
      = some (hardcoded_fallback_paths.filterMap (fc_fallback_record c5_env)) ∧
    (∃ l, get_fontconfig_fonts c5_env = some l ∧
      ({ name := "DejaVuSans"
       , path := "/usr/share/fonts/truetype/dejavu/DejaVuSans.ttf" } : FontInfo) ∈ l) := by
  have h := linux_empty_query_hardcoded_fallback c5_env rfl rfl
  exact ⟨h.1, h.2.2 (by decide)⟩

/-- C6: in the macOS probe a descriptor whose URL attribute is absent, or
present but not convertible to a filesystem path, contributes zero records;
every returned record carries the converted path of its descriptor, so no
empty-path record can arise here, unlike process_handle on a Memory handle
in the generic source, which yields a record with an empty path. -/
theorem macos_missing_url_contributes_nothing (env : MacEnv)
    (ds : List CTDescriptor) (h : env.descriptors = some ds) :
    get_core_text_fonts env = some (ds.filterMap ct_record) ∧
    (∀ d : CTDescriptor, d.url = none ∨ d.url = some none → ct_record d = none) ∧
    (∀ (l : List FontInfo) (r : FontInfo), get_core_text_fonts env = some l →
      r ∈ l → ∃ d ∈ ds, d.url = some (some r.path)) ∧
    (∀ (family : String) (bytes : List Nat) (index : Nat),
      process_handle (.memory bytes index) family = { name := family, path := "" }) := by
  have hchar := get_core_text_fonts_char env ds h
  refine ⟨hchar, ?_, ?_, fun _ _ _ => rfl⟩
  · intro d hd
    rcases hd with hd | hd <;> simp [ct_record, hd]
  · intro l r hl hr
    rw [hchar] at hl
    obtain rfl : l = ds.filterMap ct_record := by
      injection hl with hl
      exact hl.symm
    obtain ⟨d, hdmem, hdrec⟩ := List.mem_filterMap.mp hr
    refine ⟨d, hdmem, ?_⟩
    unfold ct_record at hdrec
    cases hu : d.url with
    | none => rw [hu] at hdrec; exact absurd hdrec (by simp)
    | some url =>
      cases url with
      | none => rw [hu] at hdrec; exact absurd hdrec (by simp)
      | some path =>
        rw [hu] at hdrec
        obtain rfl : ({ name := d.family_name, path := path } : FontInfo) = r := by
          injection hdrec
        rfl

/-- Descriptors exercising the three URL shapes of the macOS probe. -/
def c6_descriptors : List CTDescriptor :=
  [ { family_name := "NoURL", url := none }
  , { family_name := "BadURL", url := some none }
  , { family_name := "Good", url := some (some "/Library/Fonts/Good.ttc") } ]

/-- A macOS environment exposing the three sample descriptors. -/
def c6_env : MacEnv :=
  { descriptors := some c6_descriptors }

/-- Witness for C6: only the descriptor with a convertible URL produces a
record; the two defective descriptors contribute nothing. -/
theorem macos_missing_url_contributes_nothing_witness :
    get_core_text_fonts c6_env
      = some [{ name := "Good", path := "/Library/Fonts/Good.ttc" }] ∧
    ct_record { family_name := "NoURL", url := none } = none ∧
    ct_record { family_name := "BadURL", url := some none } = none := by
  have h := macos_missing_url_contributes_nothing c6_env c6_descriptors rfl
  refine ⟨?_, h.2.1 _ (Or.inl rfl), h.2.1 _ (Or.inr rfl)⟩
  rw [h.1]
  decide

/-- C7: for a family whose four native calls succeed and whose name decodes,
the emitted record pairs the decoded name with the synthesized path — the
fixed directory prefix, the family name and the fixed extension concatenated
verbatim.  The WinEnv environment carries no filesystem or registry
component at all, so the produced path is independent of any file existing:
the probe performs no lookup. -/
theorem windows_synthesized_placeholder_path (env : WinEnv)
    (family : WinFamily) (name : String)
    (hf : env.factoryOk = true) (hc : env.collectionOk = true)
    (hmem : family ∈ env.families)
    (h1 : family.familyOk = true) (h2 : family.namesOk = true)
    (h3 : family.lengthOk = true) (h4 : family.stringOk = true)
    (hd : family.decoded = some name) :
    dw_family_record family
      = some { name := name, path := "C:\\Windows\\Fonts\\" ++ name ++ ".ttf" } ∧
    ∃ l, get_directwrite_fonts env = some l ∧
      ({ name := name, path := "C:\\Windows\\Fonts\\" ++ name ++ ".ttf" } : FontInfo) ∈ l := by
  have hrec : dw_family_record family
      = some { name := name, path := "C:\\Windows\\Fonts\\" ++ name ++ ".ttf" } := by
    simp [dw_family_record, h1, h2, h3, h4, hd]
  exact ⟨hrec, _, get_directwrite_fonts_char env hf hc,
    List.mem_filterMap.mpr ⟨family, hmem, hrec⟩⟩

/-- Witness for C7: the Arial family yields the verbatim placeholder
record. -/
theorem windows_synthesized_placeholder_path_witness :
    dw_family_record { familyOk := true, namesOk := true, lengthOk := true
                     , stringOk := true, decoded := some "Arial" }
      = some { name := "Arial", path := "C:\\Windows\\Fonts\\Arial.ttf" } ∧
    ∃ l, get_directwrite_fonts demo_win_env = some l ∧
      ({ name := "Arial", path := "C:\\Windows\\Fonts\\Arial.ttf" } : FontInfo) ∈ l :=
  windows_synthesized_placeholder_path demo_win_env
    { familyOk := true, namesOk := true, lengthOk := true
    , stringOk := true, decoded := some "Arial" }
    "Arial" rfl rfl (by decide) rfl rfl rfl rfl rfl

/-! ## Inversion lemmas for the per-item record functions -/

/-- A record produced by the success branch comes from an Ok handle and is
exactly what process_handle builds. -/
theorem family_record_inv (env : Env) (fam : String) (r : FontInfo)
    (h : family_record env fam = some r) :
    ∃ handle, env.select_best_match fam = .ok handle ∧
      r = process_handle handle fam := by
  unfold family_record at h
  cases hs : env.select_best_match fam with
  | error e => rw [hs] at h; exact absurd h (by simp)
  | ok handle =>
    rw [hs] at h
    injection h with h
    exact ⟨handle, rfl, h.symm⟩

/-- A record produced by a fontconfig pattern carries that pattern's family
and file strings. -/
theorem fc_record_inv (pat : FcPattern) (r : FontInfo)
    (h : fc_record pat = some r) :
    ∃ family file, pat.family = some family ∧ pat.file = some file ∧
      r = { name := family, path := file } := by
  unfold fc_record at h
  cases hf : pat.family with
  | none => rw [hf] at h; exact absurd h (by simp)
  | some family =>
    rw [hf] at h
    cases hp : pat.file with
    | none => rw [hp] at h; exact absurd h (by simp)
    | some file =>
      rw [hp] at h
      injection h with h
      exact ⟨family, file, rfl, rfl, h.symm⟩

/-- A record produced by the Linux hardcoded fallback names the file stem of
an existing path. -/
theorem fc_fallback_record_inv (env : LinuxEnv) (path : String) (r : FontInfo)
    (h : fc_fallback_record env path = some r) :
    env.pathExists path = true ∧ r = { name := fileStem path, path := path } := by
  unfold fc_fallback_record at h
  cases he : env.pathExists path with
  | false => rw [he] at h; exact absurd h (by simp)
  | true =>
    rw [he] at h
    rw [if_pos rfl] at h
    injection h with h
    exact ⟨rfl, h.symm⟩

/-- A record produced by a Core Text descriptor carries that descriptor's
family name and a path its URL converted to. -/
theorem ct_record_inv (d : CTDescriptor) (r : FontInfo)
    (h : ct_record d = some r) :
    ∃ path, d.url = some (some path) ∧
      r = { name := d.family_name, path := path } := by
  unfold ct_record at h
  cases hu : d.url with
  | none => rw [hu] at h; exact absurd h (by simp)
  | some url =>
    rw [hu] at h
    cases url with
    | none => exact absurd h (by simp)
    | some path =>
      injection h with h
      exact ⟨path, rfl, h.symm⟩

/-- A record produced by a DirectWrite family pairs the decoded name
(defaulted to the empty string) with the synthesized placeholder path. -/
theorem dw_family_record_inv (family : WinFamily) (r : FontInfo)
    (h : dw_family_record family = some r) :
    r = { name := family.decoded.getD ""
        , path := "C:\\Windows\\Fonts\\" ++ family.decoded.getD "" ++ ".ttf" } := by
  unfold dw_family_record at h
  cases h1 : family.familyOk <;> rw [h1] at h
  · exact absurd h (by simp)
  cases h2 : family.namesOk <;> rw [h2] at h
  · exact absurd h (by simp)
  cases h3 : family.lengthOk <;> rw [h3] at h
  · exact absurd h (by simp)
  cases h4 : family.stringOk <;> rw [h4] at h
  · exact absurd h (by simp)
  simp only [Bool.true_eq_false, if_false] at h
  injection h with h
  exact h.symm

/-- C8 counterexample: a family whose four native calls succeed but whose
name decode fails is NOT skipped — the probe emits a record for it, with an
empty name and the degenerate placeholder path. -/
theorem windows_decode_failure_not_skipped_cex :
    get_directwrite_fonts demo_win_env_decode_fail
      = some [{ name := "", path := "C:\\Windows\\Fonts\\.ttf" }] ∧
    get_directwrite_fonts demo_win_env_decode_fail ≠ some [] := by
  exact ⟨by decide, by decide⟩

/-- C8 (amended): a failure of GetFontFamily, GetFamilyNames,
GetStringLength or GetString skips that single family while the probe
continues over the remaining families; a failure of the name DECODE however
does not skip the family — unwrap_or_default turns it into a record with an
empty name and the degenerate placeholder path. -/
theorem windows_native_failures_skip_decode_defaults (env : WinEnv)
    (family : WinFamily)
    (hf : env.factoryOk = true) (hc : env.collectionOk = true) :
    get_directwrite_fonts env = some (env.families.filterMap dw_family_record) ∧
    ((family.familyOk = false ∨ family.namesOk = false ∨
      family.lengthOk = false ∨ family.stringOk = false) →
      dw_family_record family = none) ∧
    (family.familyOk = true → family.namesOk = true → family.lengthOk = true →
      family.stringOk = true → family.decoded = none →
      dw_family_record family
        = some { name := "", path := "C:\\Windows\\Fonts\\.ttf" }) := by
  refine ⟨get_directwrite_fonts_char env hf hc, ?_, ?_⟩
  · intro hbad
    rcases hbad with hb | hb | hb | hb <;> simp [dw_family_record, hb]
  · intro h1 h2 h3 h4 hd
    simp [dw_family_record, h1, h2, h3, h4, hd]

/-- Witness for the amended C8: a names-table failure skips its family, a
decode failure produces the degenerate record, and the probe still returns
Some over a collection containing a decode-failing family. -/
theorem windows_native_failures_skip_decode_defaults_witness :
    get_directwrite_fonts demo_win_env_decode_fail
      = some (demo_win_env_decode_fail.families.filterMap dw_family_record) ∧
    dw_family_record { familyOk := true, namesOk := false, lengthOk := true
                     , stringOk := true, decoded := some "X" } = none ∧
    dw_family_record { familyOk := true, namesOk := true, lengthOk := true
                     , stringOk := true, decoded := none }
      = some { name := "", path := "C:\\Windows\\Fonts\\.ttf" } := by
  have ha := windows_native_failures_skip_decode_defaults demo_win_env_decode_fail
    { familyOk := true, namesOk := false, lengthOk := true
    , stringOk := true, decoded := some "X" } rfl rfl
  have hb := windows_native_failures_skip_decode_defaults demo_win_env_decode_fail
    { familyOk := true, namesOk := true, lengthOk := true
    , stringOk := true, decoded := none } rfl rfl
  exact ⟨ha.1, ha.2.1 (Or.inr (Or.inl rfl)), hb.2.2 rfl rfl rfl rfl rfl⟩

/-- C9 (code-bug evidence): at an environment where the factory, the
collection, one family object and its localized-name table are all acquired
and the probe completes normally, the instrumented trace holds the four
acquisitions and not one release — windows.rs contains no Release call on
any exit path, so every acquired native handle leaks. -/
theorem directwrite_never_releases :
    (get_directwrite_fonts_traced demo_win_env).2
      = [ .acquire .factory, .acquire .collection
        , .acquire (.family 0), .acquire (.names 0) ] ∧
    ((get_directwrite_fonts_traced demo_win_env).2.filter isRelease) = [] := by
  exact ⟨by decide, by decide⟩

/-- A Some result of the Linux probe means fontconfig initialized and the
list is the query contributions, or the fallback contributions when the
query produced none. -/
theorem get_fontconfig_fonts_some_inv (env : LinuxEnv) (l : List FontInfo)
    (h : get_fontconfig_fonts env = some l) :
    env.fcAvailable = true ∧
    l = (if (env.patterns.filterMap fc_record).isEmpty then
          hardcoded_fallback_paths.filterMap (fc_fallback_record env)
        else env.patterns.filterMap fc_record) := by
  cases hfc : env.fcAvailable with
  | false =>
    unfold get_fontconfig_fonts at h
    rw [hfc] at h
    simp at h
  | true =>
    have hchar := get_fontconfig_fonts_char env hfc
    rw [hchar] at h
    injection h with h
    exact ⟨rfl, h.symm⟩

/-- A Some result of the macOS probe means the descriptor array was present
and the list is the per-descriptor contributions. -/
theorem get_core_text_fonts_some_inv (env : MacEnv) (l : List FontInfo)
    (h : get_core_text_fonts env = some l) :
    ∃ ds, env.descriptors = some ds ∧ l = ds.filterMap ct_record := by
  cases hds : env.descriptors with
  | none =>
    unfold get_core_text_fonts at h
    rw [hds] at h
    simp at h
  | some ds =>
    have hchar := get_core_text_fonts_char env ds hds
    rw [hchar] at h
    injection h with h
    exact ⟨ds, rfl, h.symm⟩

/-- A Some result of the Windows probe means the factory and the collection
were created and the list is the per-family contributions. -/
theorem get_directwrite_fonts_some_inv (env : WinEnv) (l : List FontInfo)
    (h : get_directwrite_fonts env = some l) :
    env.factoryOk = true ∧ env.collectionOk = true ∧
    l = env.families.filterMap dw_family_record := by
  cases hf : env.factoryOk with
  | false =>
    unfold get_directwrite_fonts at h
    rw [hf] at h
    simp at h
  | true =>
    cases hc : env.collectionOk with
    | false =>
      unfold get_directwrite_fonts at h
      rw [hf, hc] at h
      simp at h
    | true =>
      have hchar := get_directwrite_fonts_char env hf hc
      rw [hchar] at h
      injection h with h
      exact ⟨rfl, rfl, h.symm⟩

/-- Every record of a Some result of the compiled platform probe comes from
one of the four per-item record functions: a fontconfig pattern, a hardcoded
fallback path, a Core Text descriptor, or a DirectWrite family. -/
theorem osProbe_mem_inv (env : Env) (l : List FontInfo) (r : FontInfo)
    (hp : osProbe env = some l) (hr : r ∈ l) :
    (∃ pat ∈ env.linux_env.patterns, fc_record pat = some r) ∨
    (∃ p ∈ hardcoded_fallback_paths, fc_fallback_record env.linux_env p = some r) ∨
    (∃ ds, env.macos_env.descriptors = some ds ∧
      ∃ d ∈ ds, ct_record d = some r) ∨
    (∃ family ∈ env.windows_env.families, dw_family_record family = some r) := by
  cases hos : env.os <;> simp only [osProbe, hos] at hp
  · obtain ⟨hfc, hl⟩ := get_fontconfig_fonts_some_inv env.linux_env l hp
    rw [hl] at hr
    by_cases hemp : (env.linux_env.patterns.filterMap fc_record).isEmpty = true
    · rw [if_pos hemp] at hr
      obtain ⟨p, hpm, hprec⟩ := List.mem_filterMap.mp hr
      exact Or.inr (Or.inl ⟨p, hpm, hprec⟩)
    · rw [if_neg hemp] at hr
      obtain ⟨pat, hpm, hprec⟩ := List.mem_filterMap.mp hr
      exact Or.inl ⟨pat, hpm, hprec⟩
  · obtain ⟨ds, hds, hl⟩ := get_core_text_fonts_some_inv env.macos_env l hp
    rw [hl] at hr
    obtain ⟨d, hdm, hdrec⟩ := List.mem_filterMap.mp hr
    exact Or.inr (Or.inr (Or.inl ⟨ds, hds, d, hdm, hdrec⟩))
  · obtain ⟨_, _, hl⟩ := get_directwrite_fonts_some_inv env.windows_env l hp
    rw [hl] at hr
    obtain ⟨family, hfm, hfrec⟩ := List.mem_filterMap.mp hr
    exact Or.inr (Or.inr (Or.inr ⟨family, hfm, hfrec⟩))
  · exact absurd hp (by simp)

/-- An environment compiled for Windows whose source fails outright and
whose only DirectWrite family fails its name decode. -/
def c3_env : Env :=
  { os := .windows
  , all_families := .error ()
  , select_best_match := fun _ => .error ()
  , linux_env := demo_linux_env
  , macos_env := demo_mac_env
  , windows_env := demo_win_env_decode_fail }

/-- C3 counterexample: an enumeration whose Windows fallback hits a family
with a failing name decode returns a record whose name IS the empty string,
refuting the claim that every returned record has a non-empty name. -/
theorem enumeration_empty_name_record_cex :
    get_system_fonts c3_env = [{ name := "", path := "C:\\Windows\\Fonts\\.ttf" }] ∧
    ∃ r ∈ get_system_fonts c3_env, r.name = "" :=
  ⟨by decide, by decide⟩

/-- C3 (amended): every returned record is named by its source — the
family string of the generic source, the fontconfig family or the hardcoded
file stem on Linux, the descriptor family name on macOS, the decoded family
name on Windows — so all names are non-empty PROVIDED each source-reported
name is non-empty and every Windows name decode succeeds with a non-empty
name; a failed Windows decode instead yields a record with an empty name. -/
theorem records_have_nonempty_names_under_named_sources (env : Env)
    (hgen : ∀ fams, env.all_families = .ok fams → ∀ fam ∈ fams, fam ≠ "")
    (hlin : ∀ pat ∈ env.linux_env.patterns, ∀ s, pat.family = some s → s ≠ "")
    (hmac : ∀ ds, env.macos_env.descriptors = some ds →
      ∀ d ∈ ds, d.family_name ≠ "")
    (hwin : ∀ family ∈ env.windows_env.families,
      ∃ s, family.decoded = some s ∧ s ≠ "") :
    ∀ r ∈ get_system_fonts env, r.name ≠ "" := by
  intro r hr
  cases haf : env.all_families with
  | ok fams =>
    rw [get_system_fonts_ok env fams haf] at hr
    obtain ⟨fam, hfm, hrec⟩ := List.mem_filterMap.mp hr
    obtain ⟨handle, _, hreq⟩ := family_record_inv env fam r hrec
    have hname : r.name = fam := by rw [hreq]; cases handle <;> rfl
    rw [hname]
    exact hgen fams haf fam hfm
  | error e =>
    rw [get_system_fonts_err env e haf] at hr
    cases hpo : osProbe env with
    | none => rw [hpo] at hr; exact absurd hr (by simp)
    | some l =>
      rw [hpo] at hr
      rcases osProbe_mem_inv env l r hpo hr with
        ⟨pat, hpm, hprec⟩ | ⟨p, hpm, hprec⟩ | ⟨ds, hds, d, hdm, hdrec⟩ |
        ⟨family, hfm, hfrec⟩
      · obtain ⟨fam, file, hf, _, hreq⟩ := fc_record_inv pat r hprec
        rw [hreq]
        exact hlin pat hpm fam hf
      · obtain ⟨_, hreq⟩ := fc_fallback_record_inv env.linux_env p r hprec
        have hst : ∀ q ∈ hardcoded_fallback_paths, fileStem q ≠ "" := by decide
        rw [hreq]
        exact hst p hpm
      · obtain ⟨path, _, hreq⟩ := ct_record_inv d r hdrec
        rw [hreq]
        exact hmac ds hds d hdm
      · have hreq := dw_family_record_inv family r hfrec
        obtain ⟨s, hds, hs⟩ := hwin family hfm
        rw [hreq]
        simpa [hds] using hs

/-- An environment compiled for Linux whose source fails outright and whose
fontconfig query yields one named pattern. -/
def c3w_env : Env :=
  { os := .linux
  , all_families := .error ()
  , select_best_match := fun _ => .error ()
  , linux_env := demo_linux_env
  , macos_env := demo_mac_env
  , windows_env := demo_win_env }

/-- Witness for the amended C3: the record the Linux fallback produces in
the sample environment has a non-empty name. -/
theorem records_have_nonempty_names_under_named_sources_witness :
    ({ name := "Foo", path := "/a/b.ttf" } : FontInfo).name ≠ "" := by
  have hgen : ∀ fams, c3w_env.all_families = .ok fams → ∀ fam ∈ fams, fam ≠ "" := by
    intro fams h
    exact absurd h (by simp [c3w_env])
  have hlin : ∀ pat ∈ c3w_env.linux_env.patterns, ∀ s, pat.family = some s → s ≠ "" := by
    intro pat hpat s hs
    have hp : pat = { family := some "Foo", file := some "/a/b.ttf" } := by
      simpa [c3w_env, demo_linux_env] using hpat
    rw [hp] at hs
    injection hs with hs
    rw [← hs]
    decide
  have hmac : ∀ ds, c3w_env.macos_env.descriptors = some ds →
      ∀ d ∈ ds, d.family_name ≠ "" := by
    intro ds hds
    exact absurd hds (by simp [c3w_env, demo_mac_env])
  have hwin : ∀ family ∈ c3w_env.windows_env.families,
      ∃ s, family.decoded = some s ∧ s ≠ "" := by
    intro family hf
    have hfam : family = { familyOk := true, namesOk := true, lengthOk := true
                         , stringOk := true, decoded := some "Arial" } := by
      simpa [c3w_env, demo_win_env] using hf
    rw [hfam]
    exact ⟨"Arial", rfl, by decide⟩
  exact records_have_nonempty_names_under_named_sources c3w_env hgen hlin hmac hwin
    { name := "Foo", path := "/a/b.ttf" } (by decide)

/-- The synthesized Windows path is never the empty string: it starts with a
fixed non-empty directory prefix. -/
theorem dw_path_ne_empty (s : String) :
    "C:\\Windows\\Fonts\\" ++ s ++ ".ttf" ≠ "" := by
  intro h
  have hlen := congrArg String.length h
  rw [String.length_append, String.length_append] at hlen
  have h1 : ("C:\\Windows\\Fonts\\" : String).length = 17 := rfl
  have h2 : ((".ttf" : String)).length = 4 := rfl
  have h3 : (("" : String)).length = 0 := rfl
  omega

/-- Records of the compiled platform probe carry non-empty paths whenever
the path strings the native services hand over are non-empty — the probes
only ever copy a fontconfig file string, a hardcoded constant path, a
converted URL path, or build the prefixed Windows placeholder. -/
theorem osProbe_paths_ne_empty (env : Env)
    (hlin : ∀ pat ∈ env.linux_env.patterns, ∀ s, pat.file = some s → s ≠ "")
    (hmac : ∀ ds, env.macos_env.descriptors = some ds →
      ∀ d ∈ ds, ∀ p, d.url = some (some p) → p ≠ "") :
    ∀ l r, osProbe env = some l → r ∈ l → r.path ≠ "" := by
  intro l r hp hr
  rcases osProbe_mem_inv env l r hp hr with
    ⟨pat, hpm, hprec⟩ | ⟨p, hpm, hprec⟩ | ⟨ds, hds, d, hdm, hdrec⟩ |
    ⟨family, hfm, hfrec⟩
  · obtain ⟨fam, file, _, hf, hreq⟩ := fc_record_inv pat r hprec
    rw [hreq]
    exact hlin pat hpm file hf
  · obtain ⟨_, hreq⟩ := fc_fallback_record_inv env.linux_env p r hprec
    have hne : ∀ q ∈ hardcoded_fallback_paths, q ≠ "" := by decide
    rw [hreq]
    exact hne p hpm
  · obtain ⟨path, hurl, hreq⟩ := ct_record_inv d r hdrec
    rw [hreq]
    exact hmac ds hds d hdm path hurl
  · have hreq := dw_family_record_inv family r hfrec
    rw [hreq]
    exact dw_path_ne_empty (family.decoded.getD "")

/-- C10: no platform probe ever emits a record with an empty path (the
native path strings being non-empty, as fontconfig file entries and
converted file URLs are; the Windows placeholder is unconditionally
non-empty), so an empty-path record in an enumeration result can only have
come from the generic source mapping an in-memory handle — provided the
generic source's own Path handles carry non-empty paths, every empty-path
record is traced back to a Memory handle of some reported family. -/
theorem empty_path_only_from_memory_handle (env : Env)
    (hlin : ∀ pat ∈ env.linux_env.patterns, ∀ s, pat.file = some s → s ≠ "")
    (hmac : ∀ ds, env.macos_env.descriptors = some ds →
      ∀ d ∈ ds, ∀ p, d.url = some (some p) → p ≠ "")
    (hgen : ∀ fam p i, env.select_best_match fam = .ok (.path p i) → p ≠ "") :
    (∀ l r, osProbe env = some l → r ∈ l → r.path ≠ "") ∧
    (∀ r ∈ get_system_fonts env, r.path = "" →
      ∃ fams, env.all_families = .ok fams ∧
        ∃ fam ∈ fams, ∃ bytes index,
          env.select_best_match fam = .ok (.memory bytes index) ∧
          r = { name := fam, path := "" }) := by
  refine ⟨osProbe_paths_ne_empty env hlin hmac, ?_⟩
  intro r hr hpath
  cases haf : env.all_families with
  | ok fams =>
    rw [get_system_fonts_ok env fams haf] at hr
    obtain ⟨fam, hfm, hrec⟩ := List.mem_filterMap.mp hr
    obtain ⟨handle, hsel, hreq⟩ := family_record_inv env fam r hrec
    cases handle with
    | path p i =>
      exfalso
      have hp : r.path = p := by rw [hreq]; rfl
      rw [hp] at hpath
      exact hgen fam p i hsel hpath
    | memory bytes index =>
      exact ⟨fams, rfl, fam, hfm, bytes, index, hsel, by rw [hreq]; rfl⟩
  | error e =>
    rw [get_system_fonts_err env e haf] at hr
    cases hpo : osProbe env with
    | none => rw [hpo] at hr; exact absurd hr (by simp)
    | some l =>
      rw [hpo] at hr
      exact absurd hpath (osProbe_paths_ne_empty env hlin hmac l r hpo hr)

/-- An environment compiled for Windows whose source reports one family
that resolves to an in-memory handle. -/
def c10_env : Env :=
  { os := .windows
  , all_families := .ok ["Mem"]
  , select_best_match := fun n =>
      if n = "Mem" then .ok (.memory [1] 0) else .error ()
  , linux_env := demo_linux_env
  , macos_env := demo_mac_env
  , windows_env := demo_win_env }

/-- Witness for C10: the Windows probe record of the sample environment has
a non-empty path, and the one empty-path record of its enumeration result
traces back to the Memory handle of the reported family. -/
theorem empty_path_only_from_memory_handle_witness :
    ({ name := "Arial", path := "C:\\Windows\\Fonts\\Arial.ttf" } : FontInfo).path ≠ "" ∧
    ∃ fams, c10_env.all_families = .ok fams ∧
      ∃ fam ∈ fams, ∃ bytes index,
        c10_env.select_best_match fam = .ok (.memory bytes index) ∧
        ({ name := "Mem", path := "" } : FontInfo) = { name := fam, path := "" } := by
  have hlin : ∀ pat ∈ c10_env.linux_env.patterns, ∀ s, pat.file = some s → s ≠ "" := by
    intro pat hpat s hs
    have hp : pat = { family := some "Foo", file := some "/a/b.ttf" } := by
      simpa [c10_env, demo_linux_env] using hpat
    rw [hp] at hs
    injection hs with hs
    rw [← hs]
    decide
  have hmac : ∀ ds, c10_env.macos_env.descriptors = some ds →
      ∀ d ∈ ds, ∀ p, d.url = some (some p) → p ≠ "" := by
    intro ds hds
    exact absurd hds (by simp [c10_env, demo_mac_env])
  have hgen : ∀ fam p i, c10_env.select_best_match fam = .ok (.path p i) → p ≠ "" := by
    intro fam p i h
    simp only [c10_env] at h
    split at h
    · exact absurd h (by simp)
    · exact absurd h (by simp)
  have h := empty_path_only_from_memory_handle c10_env hlin hmac hgen
  refine ⟨?_, h.2 { name := "Mem", path := "" } (by decide) rfl⟩
  exact h.1 [{ name := "Arial", path := "C:\\Windows\\Fonts\\Arial.ttf" }]
    { name := "Arial", path := "C:\\Windows\\Fonts\\Arial.ttf" } (by decide) (by decide)

end OpenGetFonts
